import Mathlib

/-!
# Verification of `salt/modules/opkg.py`

A shallow embedding of the opkg execution module: the tool-invocation retry
loop (`_call_opkg`), the output classifier (`_get_operation_from_output_line`,
`_get_package_from_output_line`), the command plan builder
(`_build_install_command_list`), the version-constraint parser
(`_get_version_info`), the snapshot diff (`salt.utils.data.compare_dicts`,
modelled from the spec since `salt/utils/data.py` is not part of the source
tree), the progress monitor (`_process_with_progress`) and the orchestration
logic of `install`, `remove` and `upgrade`.

Machine integers are `Int`/`Nat`; Python dicts are association lists in
insertion order; commands are `List String`.  Functions from the source keep
their names (leading underscores dropped where noted).
-/

namespace Opkg

/-- Result of running the external tool, as produced by `cmd.run_all` /
`_call_opkg`: `{retcode, stdout, stderr}`. -/
structure ToolResult where
  retcode : Int
  stdout : String
  stderr : String
  deriving DecidableEq, Repr

/-- Substring scan over character lists: is `needle` a contiguous sublist? -/
def listContains (needle : List Char) : List Char → Bool
  | [] => needle.isEmpty
  | c :: cs => needle.isPrefixOf (c :: cs) || listContains needle cs

/-- Python's substring test `needle in hay`. -/
def strContains (hay needle : String) : Bool :=
  listContains needle.toList hay.toList

/-- Python's `s.startswith(pre)`. -/
def strStartsWith (s pre : String) : Bool :=
  pre.toList.isPrefixOf s.toList

/-- Python's `s.endswith(suf)`. -/
def strEndsWith (s suf : String) : Bool :=
  suf.toList.reverse.isPrefixOf s.toList.reverse

/-- Python's `s.split(sep)` for a one-character separator: keeps empty
fields, and splitting the empty string yields one empty field. -/
def listSplitOnChar (sep : Char) : List Char → List (List Char)
  | [] => [[]]
  | c :: cs =>
    if c = sep then [] :: listSplitOnChar sep cs
    else
      match listSplitOnChar sep cs with
      | t :: ts => (c :: t) :: ts
      | [] => [[c]]

/-- String wrapper for `listSplitOnChar`. -/
def pySplitOnChar (sep : Char) (s : String) : List String :=
  (listSplitOnChar sep s.toList).map String.mk

/-- Helper for Python's whitespace `str.split()`: walks the characters,
accumulating the current token in reverse in `acc`; whitespace ends a token
and empty tokens are dropped, exactly as Python's no-argument `split`. -/
def pySplitAux : List Char → List Char → List String
  | [], acc => if acc.isEmpty then [] else [String.mk acc.reverse]
  | c :: cs, acc =>
    if c.isWhitespace then
      if acc.isEmpty then pySplitAux cs []
      else String.mk acc.reverse :: pySplitAux cs []
    else pySplitAux cs (c :: acc)

/-- Python's `line.split()`: split on runs of whitespace, discarding empty
tokens. -/
def pySplit (s : String) : List String :=
  pySplitAux s.toList []

/-! ## `_call_opkg` — the tool invoker with lock-contention retry

```python
for idx in range(5):
    cmd_ret = __salt__['cmd.run_all'](args, **params)
    stderr = cmd_ret.get('stderr', '')
    if 'opkg_lock: Could not lock /run/opkg.lock' in stderr and idx < 4:
        time.sleep(2)
        continue
    return cmd_ret
```

The process runs are abstracted as `attempt : Nat → ToolResult`, the result of
the `idx`-th invocation of `cmd.run_all`. -/

def lockMarker : String := "opkg_lock: Could not lock /run/opkg.lock"

/-- Whether a result's stderr contains the lock-contention marker. -/
def hasLockMarker (r : ToolResult) : Bool :=
  strContains r.stderr lockMarker

/-- The `for idx in range(5)` loop of `_call_opkg`: returns the index of the
attempt whose result the function returns.  The fuel mirrors the bound of
`range(5)`; the `idx < 4` test is the source's own retry guard. -/
def callOpkgLoop (attempt : Nat → ToolResult) : Nat → Nat → Nat
  | 0, idx => idx
  | fuel + 1, idx =>
    if hasLockMarker (attempt idx) && decide (idx < 4) then
      callOpkgLoop attempt fuel (idx + 1)
    else idx

/-- Index of the attempt returned by `_call_opkg`. -/
def callOpkgIdx (attempt : Nat → ToolResult) : Nat :=
  callOpkgLoop attempt 5 0

/-- `_call_opkg`: the returned `ToolResult`. -/
def call_opkg (attempt : Nat → ToolResult) : ToolResult :=
  attempt (callOpkgIdx attempt)

/-- Total number of invocations `_call_opkg` performs. -/
def callOpkgAttemptCount (attempt : Nat → ToolResult) : Nat :=
  callOpkgIdx attempt + 1

/-- Seconds slept by `_call_opkg`: one `time.sleep(2)` before every retry. -/
def callOpkgSleepSeconds (attempt : Nat → ToolResult) : Nat :=
  2 * callOpkgIdx attempt

/-! ## `_build_install_command_list` — the command plan builder

```python
cmds = []
if to_install:
    cmd = copy.deepcopy(cmd_prefix); cmd.extend(to_install); cmds.append(cmd)
if to_downgrade:
    cmd = copy.deepcopy(cmd_prefix); cmd.append("--force-downgrade"); cmd.extend(to_downgrade); cmds.append(cmd)
if to_reinstall:
    cmd = copy.deepcopy(cmd_prefix); cmd.append("--force-reinstall"); cmd.extend(to_reinstall); cmds.append(cmd)
return cmds
```

The `install` function also calls this with `None` for the last two buckets;
Python's `if None:` and `if []:` are both false, so `None` is embedded as
`[]`. -/

def build_install_command_list (cmdPrefix to_install to_downgrade to_reinstall :
    List String) : List (List String) :=
  let cmds : List (List String) := []
  let cmds := if to_install.isEmpty then cmds else cmds ++ [cmdPrefix ++ to_install]
  let cmds := if to_downgrade.isEmpty then cmds
              else cmds ++ [cmdPrefix ++ ["--force-downgrade"] ++ to_downgrade]
  let cmds := if to_reinstall.isEmpty then cmds
              else cmds ++ [cmdPrefix ++ ["--force-reinstall"] ++ to_reinstall]
  cmds

/-! ## Output classifier

`_get_operation_from_output_line` maps the first whitespace token of a line
through a fixed keyword table (`Downloading` only when `include_download`);
`_get_package_from_output_line` extracts the package name for the recognized
operation. -/

/-- The operation kinds of the keyword table in
`_get_operation_from_output_line`. -/
inductive OpKind
  | install | upgrade | remove | downgrade | download
  deriving DecidableEq, Repr

/-- The `operations` dict: keyword token to operation, with `Downloading`
present only when `include_download` was requested. -/
def operationOfKeyword (tok : String) (include_download : Bool) : Option OpKind :=
  if tok = "Installing" then some .install
  else if tok = "Upgrading" then some .upgrade
  else if tok = "Removing" then some .remove
  else if tok = "Downgrading" then some .downgrade
  else if include_download && tok = "Downloading" then some .download
  else none

/-- `_get_operation_from_output_line(line, include_download)`:
`operations.get(line_tokens[0]) if line_tokens else None`. -/
def get_operation_from_output_line (line : String) (include_download : Bool) :
    Option OpKind :=
  match pySplit line with
  | [] => none
  | tok :: _ => operationOfKeyword tok include_download

/-- Python truthiness of an optional string: `None` and `''` are falsy. -/
def optTruthy : Option String → Bool
  | none => false
  | some s => s != ""

/-- `_get_package_from_output_line(operation, line)`: for `download`, lines
ending in `.ipk.\n` yield the last URL path segment up to the first `_`; for
the four package operations the second token is returned only when a third
token exists and starts with `(`. -/
def get_package_from_output_line (operation : Option OpKind) (line : String) :
    Option String :=
  if operation = some .download && strEndsWith line ".ipk.\n" then
    some (((pySplitOnChar '_' ((pySplitOnChar '/' line).getLastD "")).headD ""))
  else if operation = some .install || operation = some .upgrade ||
          operation = some .remove || operation = some .downgrade then
    match pySplit line with
    | _ :: t1 :: t2 :: _ => if strStartsWith t2 "(" then some t1 else none
    | _ => none
  else none

/-- `_get_operation_and_package_from_output_line(line)`: the source combinator,
which always asks the operation parser with `include_download=True`. -/
def get_operation_and_package_from_output_line (line : String) :
    Option OpKind × Option String :=
  let operation := get_operation_from_output_line line true
  (operation, get_package_from_output_line operation line)

/-- The classifier of the spec's `Classify(line, includeDownload)` contract:
the two source parsing functions chained, with the `include_download` flag
threaded through (the source combinator fixes it to `True`; the flag is the
parameter of `_get_operation_from_output_line` itself).  `ok=true` means both
an operation and a package were produced. -/
def classify (line : String) (include_download : Bool) :
    Option (OpKind × String) :=
  match get_operation_from_output_line line include_download with
  | none => none
  | some op =>
    match get_package_from_output_line (some op) line with
    | none => none
    | some pkg => some (op, pkg)

/-! ## `_get_version_info` — the version-constraint parser

```python
versionRegex = r'(<=>|!=|>=|<=|>>|<<|<>|>|<|=)\s?((?:[0-9]+:)?[0-9][a-zA-Z0-9+~.-]*)'
match = re.search(versionRegex, version_string)
```

A verified matcher specialized to this one pattern: `re.search` tries each
start position left to right; at a position the alternation of operator
literals is tried in the written order with backtracking; `\s?` is a greedy
optional whitespace; the version group is a greedy optional epoch
`[0-9]+:` (abandoned on failure), a mandatory digit and a greedy run of
`[a-zA-Z0-9+~.-]`.  Python's `\s` also accepts `\f`/`\v`, which
`Char.isWhitespace` does not; no claim involves those characters. -/

/-- The operator alternatives, in the order the regex lists them. -/
def versionOperators : List String :=
  ["<=>", "!=", ">=", "<=", ">>", "<<", "<>", ">", "<", "="]

/-- The character class `[a-zA-Z0-9+~.-]`. -/
def isVersionChar (c : Char) : Bool :=
  c.isAlpha || c.isDigit || c = '+' || c = '~' || c = '.' || c = '-'

/-- The mandatory `[0-9][a-zA-Z0-9+~.-]*` tail of the version group. -/
def matchVersionCore : List Char → Option (List Char)
  | [] => none
  | c :: rest => if c.isDigit then some (c :: rest.takeWhile isVersionChar) else none

/-- The full version group `(?:[0-9]+:)?[0-9][a-zA-Z0-9+~.-]*`: the greedy
epoch is attempted first and abandoned if the mandatory digit after the colon
is missing. -/
def matchVersionGroup (cs : List Char) : Option (List Char) :=
  let ds := cs.takeWhile Char.isDigit
  match ds, cs.dropWhile Char.isDigit with
  | _ :: _, ':' :: rest2 =>
    match matchVersionCore rest2 with
    | some v => some (ds ++ ':' :: v)
    | none => matchVersionCore cs
  | _, _ => matchVersionCore cs

/-- `\s?` followed by the version group: the greedy path consumes one
whitespace character first and backtracks to consuming none. -/
def matchAfterOperator (cs : List Char) : Option (List Char) :=
  match cs with
  | c :: rest =>
    if c.isWhitespace then
      match matchVersionGroup rest with
      | some v => some v
      | none => matchVersionGroup cs
    else matchVersionGroup cs
  | [] => matchVersionGroup []

/-- Try the operator alternatives in order at a fixed position; an alternative
whose continuation fails backtracks to the next one. -/
def tryOperators : List String → List Char → Option (String × String)
  | [], _ => none
  | op :: ops, cs =>
    if op.toList.isPrefixOf cs then
      (match matchAfterOperator (cs.drop op.toList.length) with
       | some v => some (op, String.mk v)
       | none => tryOperators ops cs)
    else tryOperators ops cs

/-- `re.search` for the version regex: leftmost start position wins. -/
def regexSearch : List Char → Option (String × String)
  | [] => none
  | c :: cs =>
    match tryOperators versionOperators (c :: cs) with
    | some r => some r
    | none => regexSearch cs

/-- `_get_version_info(version_string)`: returns
`(versionString, operatorString, operatorSpecified)`; when the regex does not
match, the input is returned verbatim with no operator. -/
def get_version_info (version_string : String) : String × String × Bool :=
  match regexSearch version_string.toList with
  | some (op, ver) => (ver, op, true)
  | none => (version_string, "", false)

/-! ## Snapshots and the diff -/

/-- A Python dict with string keys, as an association list in insertion
order; lookups take the first (unique) binding. -/
def dictGet : List (String × String) → String → Option String
  | [], _ => none
  | p :: rest, k => if p.1 = k then some p.2 else dictGet rest k

/-- Python's `d.get(k, "")`. -/
def dictGetD (d : List (String × String)) (k : String) : String :=
  (dictGet d k).getD ""

/-- Key membership `k in d`. -/
def dictHas (d : List (String × String)) (k : String) : Bool :=
  (dictGet d k).isSome

/-- One entry of a ChangeSet: `{old: ..., new: ...}`. -/
structure Change where
  old : String
  new : String
  deriving DecidableEq, Repr

/-- Lookup in a ChangeSet. -/
def changesGet : List (String × Change) → String → Option Change
  | [], _ => none
  | p :: rest, k => if p.1 = k then some p.2 else changesGet rest k

/-- Python `d[k] = v` on a ChangeSet dict: a present key keeps its insertion
position and gets the new value, an absent key is appended. -/
def changesSet (d : List (String × Change)) (k : String) (v : Change) :
    List (String × Change) :=
  match d with
  | [] => [(k, v)]
  | p :: rest => if p.1 = k then (k, v) :: rest else p :: changesSet rest k v

/-- The key set `set(old) | set(new)` the diff iterates, as a deduplicated
list. -/
def diffKeys (old new : List (String × String)) : List String :=
  (old.map (·.1) ++ new.map (·.1)).dedup

/-- Modelled from the spec: `salt.utils.data.compare_dicts` lives in
`salt/utils/data.py`, which is not part of the source tree.  The spec states
"`Diff(A,B)` contains key k iff `A[k] != B.get(k)`", with
present-only-in-new ⇒ old="", present-only-in-old ⇒ new="", different
version ⇒ both filled, identical ⇒ omitted entirely. -/
def compare_dicts (old new : List (String × String)) : List (String × Change) :=
  (diffKeys old new).filterMap fun k =>
    if dictGet old k ≠ dictGet new k then
      some (k, ⟨dictGetD old k, dictGetD new k⟩)
    else none

/-! ## The install orchestrator

`install` (source lines 634–867) embedded over an explicit environment.
External collaborators are oracles:

* the pre/post installed-package snapshots (`_execute_list_pkgs` /
  `list_pkgs`, whose textual `opkg list-installed` parsing is abstracted —
  the resulting snapshot is environment data, the invocation is logged);
* `version_cmp`-backed comparisons (`salt.utils.versions.compare` with
  `oper` fixed to `"=="` resp. `">="` at the two call sites);
* `refresh_db` (feed statuses plus whether it raises);
* the `opkg info` package-name extraction of the file/reinstall block;
* the restartcheck collaborator (`_get_restartcheck_result` appends its
  `comment`, when present, to the operation's error list).

`invoked` logs every subprocess the embedded code path creates, in order:
the snapshot listings, the index refresh, any install command and any
detached launch.  -/

/-- Python `d[k] = v` on a snapshot dict. -/
def dictSetStr : List (String × String) → String → String → List (String × String)
  | [], k, v => [(k, v)]
  | p :: rest, k, v =>
    if p.1 = k then (k, v) :: rest else p :: dictSetStr rest k v

/-- Python `d.update(src)`. -/
def dictUpdate (d src : List (String × String)) : List (String × String) :=
  src.foldl (fun acc kv => dictSetStr acc kv.1 kv.2) d

/-- Python `", ".join(items)`. -/
def joinComma : List String → String
  | [] => ""
  | [x] => x
  | x :: xs => x ++ ", " ++ joinComma xs

/-- Python `s.strip()`. -/
def pyStrip (s : String) : String :=
  String.mk (((s.toList.dropWhile Char.isWhitespace).reverse.dropWhile
    Char.isWhitespace).reverse)

/-- The module constant `PACKAGES_TO_INSTALL_DETACHED`. -/
def PACKAGES_TO_INSTALL_DETACHED : List String := ["ni-sysmgmt-salt-minion-support"]

/-- The four bucket lists `install` accumulates. -/
structure Buckets where
  to_install : List String := []
  to_install_detached : List String := []
  to_reinstall : List String := []
  to_downgrade : List String := []
  deriving DecidableEq, Repr

/-- `_handle_to_install_package`: packages in the allow-list go to the
detached bucket, everything else to the plain install bucket. -/
def handle_to_install_package (pkg_string pkg_name : String) (b : Buckets) :
    Buckets :=
  if pkg_name ∈ PACKAGES_TO_INSTALL_DETACHED then
    { b with to_install_detached := b.to_install_detached ++ [pkg_string] }
  else
    { b with to_install := b.to_install ++ [pkg_string] }

/-- The targets resolved by `pkg_resource.parse_targets`. -/
inductive PkgParams
  | file (paths : List String)
  | repository (pkgs : List (String × Option String))
  deriving DecidableEq, Repr

/-- The caller-controlled inputs of `install`. -/
structure InstallArgs where
  nameGiven : Bool := false
  pkgsGiven : Bool := false
  params : PkgParams
  refresh : Bool := false
  reinstall : Bool := false
  versionKw : Option String := none
  only_upgrade : Bool := false
  install_recommends : Bool := true
  testmode : Bool := false

/-- Environment oracles for one run of `install`. -/
structure InstallEnv where
  contextCached : Bool := true
  old : List (String × String) := []
  preListFails : Bool := false
  preListError : String := ""
  refreshRaises : Bool := false
  refreshFeeds : List (String × Bool) := []
  postSnap : List (String × String) := []
  postListFails : Bool := false
  cmpEq : String → String → Bool := fun _ _ => false
  cmpGe : String → String → Bool := fun _ _ => true
  fileInfoName : String → Option String := fun _ => none
  restartcheckComment : Option String := none

/-- How one run of `install` ends. -/
inductive InstallOutcome
  | success (changes : List (String × Change))
  | failure (errors : List String) (changes : List (String × Change))
  | preFailure (errors : List String)
  | refreshError
  | postListError
  | typeError
  deriving DecidableEq, Repr

/-- One run of `install`: the outcome plus the effect log. -/
structure InstallRun where
  outcome : InstallOutcome
  invoked : List (List String) := []
  refreshed : Bool := false
  to_install_detached : List String := []
  detached_cmds : List (List String) := []
  deriving DecidableEq, Repr

/-- The inner `for version_condition in version_conditions` body of the
repository branch (source lines 769–794). -/
def processCondition (args : InstallArgs) (env : InstallEnv)
    (pkgname vnum cver : String) (b : Buckets) (cond : String) : Buckets :=
  let (version_string, version_operator, operator_specified) :=
    get_version_info cond
  if operator_specified then
    handle_to_install_package (pkgname ++ version_operator ++ version_string)
      pkgname b
  else
    let pkgstr := pkgname ++ "=" ++ vnum
    if args.reinstall ∧ cver ≠ "" ∧ env.cmpEq vnum cver then
      { b with to_reinstall := b.to_reinstall ++ [pkgstr] }
    else if cver = "" ∨ env.cmpGe vnum cver then
      handle_to_install_package pkgstr pkgname b
    else if ¬args.only_upgrade then
      { b with to_downgrade := b.to_downgrade ++ [pkgstr] }
    else
      -- "This should cause the command to fail."
      handle_to_install_package pkgstr pkgname b

/-- The `for pkgname, pkgversion in pkg_params.items()` body of the
repository branch (source lines 751–794). -/
def processRepoPkg (args : InstallArgs) (env : InstallEnv) (numParams : Nat)
    (b : Buckets) (p : String × Option String) : Buckets :=
  let (pkgname, pkgversion) := p
  let version_num : Option String :=
    if args.nameGiven ∧ ¬args.pkgsGiven ∧ optTruthy args.versionKw ∧
        numParams = 1 then
      args.versionKw
    else pkgversion
  match version_num with
  | none =>
    if args.reinstall ∧ dictHas env.old pkgname then
      { b with to_reinstall := b.to_reinstall ++ [pkgname] }
    else
      { b with to_install := b.to_install ++ [pkgname] }
  | some vnum =>
    let cver := dictGetD env.old pkgname
    let version_conditions := (pySplitOnChar ',' vnum).map pyStrip
    version_conditions.foldl (processCondition args env pkgname vnum cver) b

/-- The whole repository bucketing loop. -/
def bucketizeRepository (args : InstallArgs) (env : InstallEnv)
    (pkgs : List (String × Option String)) : Buckets :=
  pkgs.foldl (processRepoPkg args env pkgs.length) {}

/-- The `pkg_params is None or len(pkg_params) == 0` test of line 740. -/
def installParamsEmpty (args : InstallArgs) : Bool :=
  match args.params with
  | .file ps => ps.isEmpty
  | .repository ps => ps.isEmpty

/-- Lines 733–794: the finished command prefix and the four buckets. -/
def install_prefix_and_buckets (args : InstallArgs) (env : InstallEnv) :
    List String × Buckets :=
  let cmdPrefix := ["opkg", "install"] ++
    (if args.testmode then ["--noaction"] else [])
  match args.params with
  | .file paths =>
    (cmdPrefix ++ (if args.reinstall then ["--force-reinstall"] else []) ++
       (if ¬args.only_upgrade then ["--force-downgrade"] else []),
     { to_install := paths : Buckets })
  | .repository pkgs =>
    (cmdPrefix ++
       (if ¬args.install_recommends then ["--no-install-recommends"] else []),
     bucketizeRepository args env pkgs)

/-- Lines 796–801: the plain command plan and the detached command plan. -/
def install_plan (args : InstallArgs) (env : InstallEnv) :
    List (List String) × List (List String) :=
  let (cmdPrefix, buckets) := install_prefix_and_buckets args env
  (build_install_command_list cmdPrefix buckets.to_install
     buckets.to_downgrade buckets.to_reinstall,
   build_install_command_list cmdPrefix buckets.to_install_detached [] [])

/-- The post-diff reinstall re-add of `install` (source lines 825 and
843–847): start from `compare_dicts(old, new)` and run the
`for pkgname in to_reinstall` loop, whose condition is
`pkgname not in ret or pkgname in old`. -/
def reinstallStep (old new : List (String × String))
    (r : List (String × Change)) (pkgname : String) : List (String × Change) :=
  if ¬(changesGet r pkgname).isSome ∨ dictHas old pkgname then
    changesSet r pkgname ⟨dictGetD old pkgname, dictGetD new pkgname⟩
  else r

def install_changes_with_reinstall (old new : List (String × String))
    (to_reinstall : List String) : List (String × Change) :=
  to_reinstall.foldl (reinstallStep old new) (compare_dicts old new)

/-- `install` (source lines 634–867).  The command loop at line 817 calls
`_execute_install_command(cmd, is_testmode, errors, test_packages)` — four
arguments for a function whose signature (line 585) requires six
(`jid` and `should_process_in_detached_mode` have no defaults) — so its
first iteration raises `TypeError`; and `detached_cmds`, built at line 799,
is never iterated by any loop. -/
def install (args : InstallArgs) (env : InstallEnv) : InstallRun :=
  let preInvoked : List (List String) :=
    if env.contextCached then [] else [["opkg", "list-installed"]]
  if env.preListFails then
    { outcome := .preFailure [env.preListError], invoked := preInvoked }
  else
  let old := env.old
  if installParamsEmpty args then
    { outcome := .success [], invoked := preInvoked }
  else
  let buckets := (install_prefix_and_buckets args env).2
  let cmds := (install_plan args env).1
  let detached_cmds := (install_plan args env).2
  if cmds.isEmpty ∧ detached_cmds.isEmpty then
    { outcome := .success [], invoked := preInvoked,
      to_install_detached := buckets.to_install_detached, detached_cmds }
  else
  let invoked := preInvoked ++ (if args.refresh then [["opkg", "update"]] else [])
  if args.refresh ∧ env.refreshRaises then
    { outcome := .refreshError, invoked, refreshed := true,
      to_install_detached := buckets.to_install_detached, detached_cmds }
  else
  let failed_feeds :=
    (if args.refresh then env.refreshFeeds else []).filter (fun f => ¬f.2)
  let feed_update_error : Option String :=
    if failed_feeds.isEmpty then none
    else some ("Error getting repos: " ++ joinComma (failed_feeds.map (·.1)))
  if ¬cmds.isEmpty then
    -- for cmd in cmds: _execute_install_command(cmd, is_testmode, errors,
    -- test_packages) — TypeError on the first iteration, see the docstring.
    { outcome := .typeError, invoked, refreshed := args.refresh,
      to_install_detached := buckets.to_install_detached, detached_cmds }
  else
  -- __context__.pop("pkg.list_pkgs"); new = list_pkgs() always re-invokes
  let invoked := invoked ++ [["opkg", "list-installed"]]
  if env.postListFails then
    { outcome := .postListError, invoked, refreshed := args.refresh,
      to_install_detached := buckets.to_install_detached, detached_cmds }
  else
  let test_packages : List (String × String) := []  -- the loop never ran
  let newSnap :=
    if args.testmode then dictUpdate env.postSnap test_packages else env.postSnap
  let fileReinstallNames : List String :=
    match args.params with
    | .file _ =>
      if args.reinstall then buckets.to_install.filterMap env.fileInfoName
      else []
    | .repository _ => []
  let invoked := invoked ++
    (match args.params with
     | .file _ =>
       if args.reinstall then buckets.to_install.map (fun f => ["opkg", "info", f])
       else []
     | .repository _ => [])
  let to_reinstall := buckets.to_reinstall ++ fileReinstallNames
  let ret := install_changes_with_reinstall old newSnap to_reinstall
  let errors : List String :=
    match env.restartcheckComment with
    | some c => [c]
    | none => []
  if ¬errors.isEmpty then
    let errors := errors ++
      (match feed_update_error with | some e => [e] | none => [])
    { outcome := .failure errors ret, invoked, refreshed := args.refresh,
      to_install_detached := buckets.to_install_detached, detached_cmds }
  else
    { outcome := .success ret, invoked, refreshed := args.refresh,
      to_install_detached := buckets.to_install_detached, detached_cmds }

/-! ## The remove orchestrator

`remove` (source lines 960–1038) embedded with `notify_pkg_progress`
disabled, so `_execute_remove_command` runs the single combined command
through `_call_opkg`; the error accounting after `out` is identical for the
progress-monitored mode.  The `info_installed` snapshots are oracles; the
regex extractor `_parse_reported_packages_from_remove_output` is abstracted
as the oracle `reportedParse` (it is consulted only in test mode). -/

structure RemoveArgs where
  pkg_params : List String
  remove_dependencies : Bool := false
  auto_remove_deps : Bool := false
  testmode : Bool := false

structure RemoveEnv where
  old : List (String × String) := []
  postSnap : List (String × String) := []
  exec : List String → ToolResult := fun _ => ⟨0, "", ""⟩
  reportedParse : String → List String := fun _ => []
  restartcheckComment : Option String := none

inductive RemoveOutcome
  | success (changes : List (String × Change))
  | failure (errors : List String) (changes : List (String × Change))
  deriving DecidableEq, Repr

/-- Lines 1003–1012: the targets resolved against the old snapshot
(names not currently installed are dropped) and the one combined command. -/
def remove_targets (args : RemoveArgs) (env : RemoveEnv) : List String :=
  args.pkg_params.filter (fun x => dictHas env.old x)

/-- The single `opkg remove` command `remove` issues. -/
def remove_command (args : RemoveArgs) (env : RemoveEnv) : List String :=
  ["opkg", "remove"] ++
    (if args.testmode then ["--noaction"] else []) ++
    (if args.remove_dependencies then ["--force-removal-of-dependent-packages"]
     else []) ++
    (if args.auto_remove_deps then ["--autoremove"] else []) ++
    remove_targets args env

/-- `remove`: outcome plus the list of issued remove commands. -/
def remove (args : RemoveArgs) (env : RemoveEnv) :
    RemoveOutcome × List (List String) :=
  let old := env.old
  let targets := remove_targets args env
  if targets.isEmpty then (.success [], [])
  else
  let cmd := remove_command args env
  let out := env.exec cmd
  let errors : List String :=
    if out.retcode ≠ 0 then
      [if out.stderr ≠ "" then out.stderr else out.stdout]
    else []
  let reportedPkgs : List String :=
    if out.retcode = 0 ∧ args.testmode then env.reportedParse out.stdout else []
  let newSnap :=
    if args.testmode then
      env.postSnap.filter (fun kv => ¬reportedPkgs.contains kv.1)
    else env.postSnap
  let ret := compare_dicts old newSnap
  let errors := errors ++
    (match env.restartcheckComment with | some c => [c] | none => [])
  if ¬errors.isEmpty then (.failure errors ret, [cmd])
  else (.success ret, [cmd])

/-! ## The upgrade orchestrator

`upgrade` (source lines 1070–1132).  When the post-operation listing fails,
`ret` keeps its initial `{"changes": {}, "result": True, "comment": ""}`
shape; that degenerate value is embedded as `none`.  A nonzero exit appends
the whole `ToolResult` to the error list, the restartcheck collaborator
appends its comment string — a heterogeneous Python list, embedded as a sum
type. -/

structure UpgradeEnv where
  old : List (String × String) := []
  postSnap : List (String × String) := []
  exec : List String → ToolResult := fun _ => ⟨0, "", ""⟩
  refreshRaises : Bool := false
  preListFails : Bool := false
  preListError : String := ""
  postListFails : Bool := false
  restartcheckComment : Option String := none

inductive UpgradeOutcome
  | success (changes : Option (List (String × Change)))
  | failure (errors : List (ToolResult ⊕ String))
      (changes : Option (List (String × Change)))
  | preFailure (errors : List String)
  | refreshError
  deriving DecidableEq, Repr

def upgrade (refresh : Bool) (env : UpgradeEnv) : UpgradeOutcome :=
  if refresh ∧ env.refreshRaises then .refreshError
  else
  if env.preListFails then .preFailure [env.preListError]
  else
  let old := env.old
  let result := env.exec ["opkg", "upgrade"]
  let ret : Option (List (String × Change)) :=
    if env.postListFails then none else some (compare_dicts old env.postSnap)
  let errors : List (ToolResult ⊕ String) :=
    if result.retcode ≠ 0 then [.inl result] else []
  let errors := errors ++
    (match env.restartcheckComment with | some c => [.inr c] | none => [])
  if ¬errors.isEmpty then .failure errors ret
  else .success ret

/-! ## `_process_with_progress` — the progress monitor

The read loop (source lines 513–583) is embedded as a deterministic state
machine: one iteration per complete line of child output (the abstraction of
a run in which `select` always reports the line ready; iterations that poll
without data only re-run the emission check with a later timestamp, which can
add emissions but never remove any).  `time.time()` at iteration `i` is the
oracle `ts i`; `notify_progress_period` is `period`; events fired to the
master bus are collected in order in `events`. -/

/-- The `progress_info` payload of one fired event. -/
structure ProgressEvent where
  operation : Option OpKind
  package : Option String
  count : Nat
  total : Int
  deriving DecidableEq, Repr

/-- The loop state of `_process_with_progress`. -/
structure MonState where
  stdoutAcc : String := ""
  processed : Nat := 0
  forceUpdate : Bool := true
  lastSent : Option String := none
  lastNotify : Int := 0
  currentPackage : Option String := none
  operation : Option OpKind := none
  events : List ProgressEvent := []
  deriving Repr

/-- One iteration of the read loop: read `line`, classify it, update the
counters, then run the rate-limited emission check at time `now`. -/
def monitorStep (total period now : Int) (st : MonState) (line : String) :
    MonState :=
  let st := { st with stdoutAcc := st.stdoutAcc ++ line }
  let (lineOp, linePkg) := get_operation_and_package_from_output_line line
  let st :=
    if lineOp.isSome ∧ optTruthy linePkg then
      let st := { st with operation := lineOp, currentPackage := linePkg }
      if lineOp = some .install ∨ lineOp = some .upgrade ∨
          lineOp = some .remove ∨ lineOp = some .downgrade then
        let processed := st.processed + 1
        { st with
          processed := processed,
          forceUpdate := st.forceUpdate ||
            decide ((processed : Int) = 1 ∨ (processed : Int) = total) }
      else st
    else st
  if (now - st.lastNotify > period ∨ st.forceUpdate) ∧
      st.lastSent ≠ st.currentPackage then
    { st with
      forceUpdate := false,
      lastSent := st.currentPackage,
      lastNotify := now,
      events := st.events ++
        [{ operation := st.operation, package := st.currentPackage,
           count := st.processed, total := total }] }
  else st

/-- The read loop over the child's lines, iteration index threaded for the
timestamp oracle. -/
def monitorGo (total period : Int) (ts : Nat → Int) :
    Nat → MonState → List String → MonState
  | _, st, [] => st
  | i, st, l :: ls =>
    monitorGo total period ts (i + 1) (monitorStep total period (ts i) st l) ls

/-- `_process_with_progress` on a child that prints `lines` and exits: the
final loop state (the returned `ToolResult` is
`{retcode, stdoutAcc ++ trailing, stderr}` from the final `communicate`). -/
def monitorRun (total period : Int) (ts : Nat → Int) (lines : List String) :
    MonState :=
  monitorGo total period ts 0 {} lines

/-- One line of the scripted child output fed to the monitor in the
first/last-event scenario: `Installing <pkg> (<ver>) on root`. -/
def installingLine (p v : String) : String :=
  "Installing " ++ p ++ " (" ++ v ++ ") on root"

/-- Monitor invariant: whatever package name is marked last-sent was carried
by some already-fired event. -/
def eventsInv (st : MonState) : Prop :=
  ∀ q, st.lastSent = some q → ∃ e ∈ st.events, e.package = some q

/-! # Theorems -/

/-- A successful dict lookup means the key occurs in the dict. -/
theorem dictGet_mem_keys {d : List (String × String)} {k v : String}
    (h : dictGet d k = some v) : k ∈ d.map (·.1) := by
  induction d with
  | nil => cases h
  | cons p rest ih =>
    unfold dictGet at h
    by_cases hp : p.1 = k
    · rw [List.map_cons]
      exact hp ▸ List.mem_cons_self ..
    · rw [if_neg hp] at h
      rw [List.map_cons]
      exact List.mem_cons_of_mem _ (ih h)

/-- C2.  For all snapshots A and B, the diff `compare_dicts(A,B)` contains a
key k iff A and B disagree on k (`A.get(k) != B.get(k)`, keys present in
only one side included), and `compare_dicts(A,A)` is empty. -/
theorem C2_snapshot_diff (A B : List (String × String)) :
    (∀ k : String,
      (∃ c, (k, c) ∈ compare_dicts A B) ↔ dictGet A k ≠ dictGet B k) ∧
    compare_dicts A A = [] := by
  constructor
  · intro k
    constructor
    · rintro ⟨c, hc⟩
      unfold compare_dicts at hc
      rw [List.mem_filterMap] at hc
      obtain ⟨a, _, hfa⟩ := hc
      by_cases hne : dictGet A a ≠ dictGet B a
      · rw [if_pos hne] at hfa
        obtain ⟨rfl, -⟩ := Prod.mk.injEq .. ▸ Option.some.inj hfa
        exact hne
      · rw [if_neg hne] at hfa; cases hfa
    · intro hne
      have hkeys : k ∈ diffKeys A B := by
        unfold diffKeys
        rw [List.mem_dedup, List.mem_append]
        cases hA : dictGet A k with
        | some v => exact Or.inl (dictGet_mem_keys hA)
        | none =>
          cases hB : dictGet B k with
          | some v => exact Or.inr (dictGet_mem_keys hB)
          | none => rw [hA, hB] at hne; exact absurd rfl hne
      refine ⟨⟨dictGetD A k, dictGetD B k⟩, ?_⟩
      unfold compare_dicts
      rw [List.mem_filterMap]
      exact ⟨k, hkeys, if_pos hne⟩
  · unfold compare_dicts
    rw [List.filterMap_eq_nil_iff]
    intro a _
    rw [if_neg]
    intro h
    exact h rfl

/-- The retry loop index never exceeds 4. -/
theorem callOpkgLoop_le (attempt : Nat → ToolResult) :
    ∀ fuel idx, idx ≤ 4 → callOpkgLoop attempt fuel idx ≤ 4 := by
  intro fuel
  induction fuel with
  | zero => intro idx h; exact h
  | succ n ih =>
    intro idx h
    unfold callOpkgLoop
    by_cases hc : (hasLockMarker (attempt idx) && decide (idx < 4)) = true
    · rw [if_pos hc]
      have : idx < 4 := by
        have := (Bool.and_eq_true ..).mp hc
        exact of_decide_eq_true this.2
      exact ih (idx + 1) this
    · rw [if_neg hc]; exact h

/-- C5.  `_call_opkg`: when every attempt's stderr contains the lock marker
the invoker performs exactly 5 attempts (4 retries, each after one 2-second
sleep, 8 seconds total) and returns the fifth result unchanged; the first
attempt whose stderr lacks the marker is returned immediately; and for every
input the invoker returns the result of some attempt (it never raises). -/
theorem C5_call_opkg_retry (attempt : Nat → ToolResult) :
    ((∀ i, i < 5 → hasLockMarker (attempt i) = true) →
      callOpkgAttemptCount attempt = 5 ∧ call_opkg attempt = attempt 4 ∧
      callOpkgSleepSeconds attempt = 8) ∧
    (∀ i, i < 5 → (∀ j, j < i → hasLockMarker (attempt j) = true) →
      hasLockMarker (attempt i) = false →
      call_opkg attempt = attempt i ∧ callOpkgAttemptCount attempt = i + 1) ∧
    (∃ i, i ≤ 4 ∧ call_opkg attempt = attempt i) := by
  refine ⟨?_, ?_, ?_⟩
  · intro h
    have hidx : callOpkgIdx attempt = 4 := by
      simp [callOpkgIdx, callOpkgLoop, h 0 (by norm_num), h 1 (by norm_num),
        h 2 (by norm_num), h 3 (by norm_num)]
    refine ⟨?_, ?_, ?_⟩
    · rw [callOpkgAttemptCount, hidx]
    · rw [call_opkg, hidx]
    · rw [callOpkgSleepSeconds, hidx]
  · intro i hi hprev hstop
    have hidx : callOpkgIdx attempt = i := by
      interval_cases i
      · simp [callOpkgIdx, callOpkgLoop, hstop]
      · simp [callOpkgIdx, callOpkgLoop, hprev 0 (by norm_num), hstop]
      · simp [callOpkgIdx, callOpkgLoop, hprev 0 (by norm_num),
          hprev 1 (by norm_num), hstop]
      · simp [callOpkgIdx, callOpkgLoop, hprev 0 (by norm_num),
          hprev 1 (by norm_num), hprev 2 (by norm_num), hstop]
      · simp [callOpkgIdx, callOpkgLoop, hprev 0 (by norm_num),
          hprev 1 (by norm_num), hprev 2 (by norm_num), hprev 3 (by norm_num)]
    exact ⟨by rw [call_opkg, hidx], by rw [callOpkgAttemptCount, hidx]⟩
  · exact ⟨callOpkgIdx attempt, callOpkgLoop_le attempt 5 0 (by norm_num), rfl⟩

/-- Witness for C5 at a concrete attempt sequence: every attempt reports the
lock marker, so all five attempts are made and the fifth is returned. -/
theorem C5_call_opkg_retry_witness :
    (∀ i, i < 5 →
      hasLockMarker ((fun _ => ToolResult.mk 1 "" lockMarker) i) = true) ∧
    callOpkgAttemptCount (fun _ => ToolResult.mk 1 "" lockMarker) = 5 ∧
    call_opkg (fun _ => ToolResult.mk 1 "" lockMarker) =
      ToolResult.mk 1 "" lockMarker := by
  have hall : ∀ i, i < 5 →
      hasLockMarker ((fun _ => ToolResult.mk 1 "" lockMarker) i) = true := by
    intro i _
    show hasLockMarker (ToolResult.mk 1 "" lockMarker) = true
    decide
  have h := (C5_call_opkg_retry (fun _ => ToolResult.mk 1 "" lockMarker)).1 hall
  exact ⟨hall, h.1, h.2.1⟩

/-- C6.  `_build_install_command_list` emits at most three commands in the
fixed order install, downgrade, reinstall; the install command is
`prefix ++ installTargets`, the downgrade command appends
`--force-downgrade` to a copy of the prefix, the reinstall command appends
`--force-reinstall`; empty buckets contribute no command; and
`Build(["t","install"], ["a"], [], ["b"])` is exactly
`[["t","install","a"], ["t","install","--force-reinstall","b"]]`. -/
theorem C6_command_plan (p i d r : List String) :
    build_install_command_list p i d r =
      (if i = [] then [] else [p ++ i]) ++
      (if d = [] then [] else [p ++ ["--force-downgrade"] ++ d]) ++
      (if r = [] then [] else [p ++ ["--force-reinstall"] ++ r]) ∧
    (build_install_command_list p i d r).length ≤ 3 ∧
    build_install_command_list ["t", "install"] ["a"] [] ["b"] =
      [["t", "install", "a"], ["t", "install", "--force-reinstall", "b"]] := by
  refine ⟨?_, ?_, by decide⟩
  · cases i <;> cases d <;> cases r <;> simp [build_install_command_list]
  · cases i <;> cases d <;> cases r <;> simp [build_install_command_list]

/-- C7.  The output classifier recognizes the operation from the first
whitespace token; for the four package operations the package is the second
token, accepted exactly when a third token exists and begins with `(`;
`Classify("Installing vim (17.0.0) on root", false)` accepts `vim` and
`Classify("Removing any package that needs it", false)` rejects. -/
theorem C7_output_classifier :
    (∀ (line : String) (flag : Bool) (op : OpKind) (pkg : String),
      classify line flag = some (op, pkg) → op ≠ OpKind.download →
      ∃ t0 t2 rest, pySplit line = t0 :: pkg :: t2 :: rest ∧
        operationOfKeyword t0 flag = some op ∧ strStartsWith t2 "(" = true) ∧
    (∀ (line : String) (flag : Bool) (t0 t1 t2 : String) (rest : List String)
      (op : OpKind), pySplit line = t0 :: t1 :: t2 :: rest →
      operationOfKeyword t0 flag = some op → op ≠ OpKind.download →
      strStartsWith t2 "(" = true → classify line flag = some (op, t1)) ∧
    classify "Installing vim (17.0.0) on root" false =
      some (OpKind.install, "vim") ∧
    classify "Removing any package that needs it" false = none := by
  refine ⟨?_, ?_, by decide, by decide⟩
  · intro line flag op pkg hcl hne
    unfold classify at hcl
    cases hop : get_operation_from_output_line line flag with
    | none => rw [hop] at hcl; cases hcl
    | some op' =>
      rw [hop] at hcl
      dsimp only at hcl
      cases hpkg : get_package_from_output_line (some op') line with
      | none => rw [hpkg] at hcl; cases hcl
      | some pkg' =>
        rw [hpkg] at hcl
        simp only [Option.some.injEq, Prod.mk.injEq] at hcl
        obtain ⟨rfl, rfl⟩ := hcl
        unfold get_operation_from_output_line at hop
        cases hsplit : pySplit line with
        | nil => rw [hsplit] at hop; cases hop
        | cons t0 ts =>
          rw [hsplit] at hop
          unfold get_package_from_output_line at hpkg
          rw [if_neg (by simp [hne]), if_pos (by cases op' <;> simp_all),
            hsplit] at hpkg
          match ts, hpkg with
          | t1 :: t2 :: rest, hpkg =>
            dsimp only at hpkg
            by_cases hpar : strStartsWith t2 "(" = true
            · rw [if_pos hpar] at hpkg
              obtain rfl := Option.some.inj hpkg
              exact ⟨t0, t2, rest, rfl, hop, hpar⟩
            · rw [if_neg hpar] at hpkg; cases hpkg
  · intro line flag t0 t1 t2 rest op hsplit hkw hne hpar
    have hop : get_operation_from_output_line line flag = some op := by
      unfold get_operation_from_output_line
      rw [hsplit]
      exact hkw
    have hpkg : get_package_from_output_line (some op) line = some t1 := by
      unfold get_package_from_output_line
      rw [if_neg (by simp [hne]), if_pos (by cases op <;> simp_all), hsplit]
      simp [hpar]
    unfold classify
    rw [hop]
    dsimp only
    rw [hpkg]

/-- Witness for C7 at a concrete upgrade line with `includeDownload=true`. -/
theorem C7_output_classifier_witness :
    classify "Upgrading foo (2.0) to foo (3.0) on root" true =
      some (OpKind.upgrade, "foo") ∧
    ∃ t0 t2 rest,
      pySplit "Upgrading foo (2.0) to foo (3.0) on root" =
        t0 :: "foo" :: t2 :: rest ∧
      operationOfKeyword t0 true = some OpKind.upgrade ∧
      strStartsWith t2 "(" = true :=
  ⟨by decide,
   C7_output_classifier.1 "Upgrading foo (2.0) to foo (3.0) on root" true
     OpKind.upgrade "foo" (by decide) (by decide)⟩

/-- An operator produced by the alternation comes from the alternative
list. -/
theorem tryOperators_mem :
    ∀ (ops : List String) (cs : List Char) (op v : String),
      tryOperators ops cs = some (op, v) → op ∈ ops := by
  intro ops
  induction ops with
  | nil => intro cs op v h; cases h
  | cons o os ih =>
    intro cs op v h
    unfold tryOperators at h
    by_cases hpre : o.toList.isPrefixOf cs = true
    · rw [if_pos hpre] at h
      cases hm : matchAfterOperator (cs.drop o.toList.length) with
      | some w =>
        rw [hm] at h
        obtain ⟨rfl, -⟩ := Prod.mk.injEq .. ▸ Option.some.inj h
        exact List.mem_cons_self o os
      | none =>
        rw [hm] at h
        exact List.mem_cons_of_mem o (ih cs op v h)
    · rw [if_neg hpre] at h
      exact List.mem_cons_of_mem o (ih cs op v h)

/-- A successful regex search reports an operator from the alternative
list. -/
theorem regexSearch_mem :
    ∀ (cs : List Char) (op v : String),
      regexSearch cs = some (op, v) → op ∈ versionOperators := by
  intro cs
  induction cs with
  | nil => intro op v h; cases h
  | cons c cs ih =>
    intro op v h
    unfold regexSearch at h
    cases ht : tryOperators versionOperators (c :: cs) with
    | some r =>
      rw [ht] at h
      obtain rfl := Option.some.inj h
      exact tryOperators_mem _ _ _ _ ht
    | none =>
      rw [ht] at h
      exact ih op v h

/-- C8 counterexample.  The claim lists the recognizable operators as
`<<, >>, <=, >=, <>, !=, <, >, =`, but the source regex's first alternative
is `<=>`: on `"<=>2.0"` the parser reports `hasOperator=true` with the
operator `"<=>"`, which is not among the claim's nine. -/
theorem C8_get_version_info_counterexample :
    get_version_info "<=>2.0" = ("2.0", "<=>", true) ∧
    "<=>" ∉ ["<<", ">>", "<=", ">=", "<>", "!=", "<", ">", "="] := by
  exact ⟨by decide, by decide⟩

/-- C8 (amended).  The parser recognizes an operator among
`<=>, !=, >=, <=, >>, <<, <>, >, <, =` optionally followed by whitespace and
a `[epoch:]numeric[suffix]` version token; on any input with no match it
returns the input unchanged with an empty operator and `hasOperator=false`,
never erroring; `Parse(">=1.2.3") = ("1.2.3", ">=", true)` and
`Parse("1.2.3") = ("1.2.3", "", false)`. -/
theorem C8_get_version_info (s : String) :
    ((get_version_info s).2.2 = true →
      (get_version_info s).2.1 ∈ versionOperators) ∧
    ((get_version_info s).2.2 = false →
      (get_version_info s).1 = s ∧ (get_version_info s).2.1 = "") ∧
    get_version_info ">=1.2.3" = ("1.2.3", ">=", true) ∧
    get_version_info ">= 1.2.3" = ("1.2.3", ">=", true) ∧
    get_version_info "1.2.3" = ("1.2.3", "", false) := by
  refine ⟨?_, ?_, by decide, by decide, by decide⟩
  · intro htrue
    unfold get_version_info at htrue ⊢
    cases h : regexSearch s.toList with
    | none => rw [h] at htrue; cases htrue
    | some r =>
      obtain ⟨op, ver⟩ := r
      exact regexSearch_mem _ _ _ h
  · intro hfalse
    unfold get_version_info at hfalse ⊢
    cases h : regexSearch s.toList with
    | none => exact ⟨rfl, rfl⟩
    | some r =>
      obtain ⟨op, ver⟩ := r
      rw [h] at hfalse
      cases hfalse

/-- Witness for C8 at `">=1.2.3"`: the operator case of the theorem. -/
theorem C8_get_version_info_witness :
    (get_version_info ">=1.2.3").2.2 = true ∧
    (get_version_info ">=1.2.3").2.1 ∈ versionOperators :=
  ⟨by decide, (C8_get_version_info ">=1.2.3").1 (by decide)⟩

/-- A successful dict lookup returns a binding of the dict. -/
theorem dictGet_mem {d : List (String × String)} {k v : String}
    (h : dictGet d k = some v) : (k, v) ∈ d := by
  induction d with
  | nil => cases h
  | cons p rest ih =>
    unfold dictGet at h
    by_cases hp : p.1 = k
    · rw [if_pos hp] at h
      have hv : p.2 = v := Option.some.inj h
      have hpkv : p = (k, v) := by
        obtain ⟨a, b⟩ := p
        dsimp at hp hv
        rw [hp, hv]
      exact hpkv ▸ List.mem_cons_self ..
    · rw [if_neg hp] at h
      exact List.mem_cons_of_mem _ (ih h)

/-- Updating a key makes it retrievable with the new value. -/
theorem changesGet_changesSet_self (d : List (String × Change)) (k : String)
    (v : Change) : changesGet (changesSet d k v) k = some v := by
  induction d with
  | nil => simp [changesSet, changesGet]
  | cons p rest ih =>
    unfold changesSet
    by_cases hp : p.1 = k
    · rw [if_pos hp]; simp [changesGet]
    · rw [if_neg hp]
      unfold changesGet
      rw [if_neg hp]
      exact ih

/-- Updating one key leaves other keys' lookups unchanged. -/
theorem changesGet_changesSet_other (d : List (String × Change)) (a k : String)
    (v : Change) (h : k ≠ a) :
    changesGet (changesSet d a v) k = changesGet d k := by
  induction d with
  | nil =>
    unfold changesSet changesGet
    rw [if_neg (fun hh => h hh.symm)]
    rfl
  | cons p rest ih =>
    unfold changesSet
    by_cases hp : p.1 = a
    · rw [if_pos hp]
      unfold changesGet
      rw [if_neg (fun hh => h hh.symm), if_neg (by rw [hp]; exact fun hh => h hh.symm)]
    · rw [if_neg hp]
      unfold changesGet
      by_cases hk : p.1 = k
      · rw [if_pos hk, if_pos hk]
      · rw [if_neg hk, if_neg hk]
        exact ih

/-- A binding of the updated dict is an original binding or the update. -/
theorem mem_changesSet {d : List (String × Change)} {a k : String}
    {v c : Change} (h : (k, c) ∈ changesSet d a v) :
    (k, c) ∈ d ∨ (k = a ∧ c = v) := by
  induction d with
  | nil =>
    unfold changesSet at h
    rcases List.mem_singleton.mp h with h1
    exact Or.inr ⟨congrArg Prod.fst h1, congrArg Prod.snd h1⟩
  | cons p rest ih =>
    unfold changesSet at h
    by_cases hp : p.1 = a
    · rw [if_pos hp] at h
      rcases List.mem_cons.mp h with h1 | h2
      · exact Or.inr ⟨congrArg Prod.fst h1, congrArg Prod.snd h1⟩
      · exact Or.inl (List.mem_cons_of_mem _ h2)
    · rw [if_neg hp] at h
      rcases List.mem_cons.mp h with h1 | h2
      · exact Or.inl (h1 ▸ List.mem_cons_self ..)
      · rcases ih h2 with h3 | h3
        · exact Or.inl (List.mem_cons_of_mem _ h3)
        · exact Or.inr h3

/-- Every entry of the bare snapshot diff records the two lookups (with `""`
defaults) of a key on which the snapshots disagree. -/
theorem mem_compare_dicts {A B : List (String × String)} {k : String}
    {c : Change} (h : (k, c) ∈ compare_dicts A B) :
    dictGet A k ≠ dictGet B k ∧ c = ⟨dictGetD A k, dictGetD B k⟩ := by
  unfold compare_dicts at h
  rw [List.mem_filterMap] at h
  obtain ⟨a, -, hfa⟩ := h
  by_cases hne : dictGet A a ≠ dictGet B a
  · rw [if_pos hne] at hfa
    have h1 := congrArg Prod.fst (Option.some.inj hfa)
    have h2 := congrArg Prod.snd (Option.some.inj hfa)
    dsimp at h1 h2
    subst h1
    exact ⟨hne, h2.symm⟩
  · rw [if_neg hne] at hfa; cases hfa

/-- On snapshots whose versions are all nonempty, every entry of the bare
diff has `old ≠ new`. -/
theorem compare_dicts_old_ne_new {A B : List (String × String)}
    (hA : ∀ kv ∈ A, kv.2 ≠ "") (hB : ∀ kv ∈ B, kv.2 ≠ "")
    {k : String} {c : Change} (h : (k, c) ∈ compare_dicts A B) :
    c.old ≠ c.new := by
  obtain ⟨hne, rfl⟩ := mem_compare_dicts h
  intro heq
  dsimp at heq
  unfold dictGetD at heq
  cases hA' : dictGet A k with
  | none =>
    cases hB' : dictGet B k with
    | none => exact hne (hA' ▸ hB' ▸ rfl)
    | some b =>
      rw [hA', hB'] at heq
      exact hB (k, b) (dictGet_mem hB') (by simpa using heq.symm)
  | some a =>
    cases hB' : dictGet B k with
    | none =>
      rw [hA', hB'] at heq
      exact hA (k, a) (dictGet_mem hA') (by simpa using heq)
    | some b =>
      rw [hA', hB'] at heq
      simp only [Option.getD_some] at heq
      exact hne (hA' ▸ hB' ▸ heq ▸ rfl)

/-- C3 counterexample.  A package bucketed for reinstall whose version did
not change between the snapshots is not omitted from the ChangeSet `install`
builds: the re-add loop of lines 843–847 inserts it with `old` equal to
`new` (here both `"1.0"`), so the claim's omission invariant fails on the
code. -/
theorem C3_reinstall_changes_counterexample :
    install_changes_with_reinstall [("a", "1.0")] [("a", "1.0")] ["a"] =
      [("a", { old := "1.0", new := "1.0" })] := by decide

/-- Any binding after the reinstall fold is an original diff binding or a
re-added reinstall name with the snapshot versions. -/
theorem mem_reinstall_fold (old new : List (String × String)) :
    ∀ (l : List String) (r : List (String × Change)) (k : String) (c : Change),
      (k, c) ∈ l.foldl (reinstallStep old new) r →
      (k, c) ∈ r ∨ (k ∈ l ∧ c = ⟨dictGetD old k, dictGetD new k⟩) := by
  intro l
  induction l with
  | nil => intro r k c h; exact Or.inl h
  | cons a l ih =>
    intro r k c h
    rw [List.foldl_cons] at h
    rcases ih (reinstallStep old new r a) k c h with h1 | h1
    · unfold reinstallStep at h1
      by_cases hc : ¬(changesGet r a).isSome ∨ dictHas old a
      · rw [if_pos hc] at h1
        rcases mem_changesSet h1 with h2 | ⟨rfl, rfl⟩
        · exact Or.inl h2
        · exact Or.inr ⟨List.mem_cons_self .., rfl⟩
      · rw [if_neg hc] at h1
        exact Or.inl h1
    · exact Or.inr ⟨List.mem_cons_of_mem _ h1.1, h1.2⟩

/-- Once a reinstall name in the old snapshot is (or gets) bound to its
snapshot versions, the fold's final lookup returns exactly that. -/
theorem reinstall_fold_get (old new : List (String × String)) (k : String)
    (hk : dictHas old k = true) :
    ∀ (l : List String) (r : List (String × Change)),
      (k ∈ l ∨ changesGet r k = some ⟨dictGetD old k, dictGetD new k⟩) →
      changesGet (l.foldl (reinstallStep old new) r) k =
        some ⟨dictGetD old k, dictGetD new k⟩ := by
  intro l
  induction l with
  | nil =>
    intro r h
    rcases h with h | h
    · cases h
    · exact h
  | cons a l ih =>
    intro r h
    rw [List.foldl_cons]
    by_cases hak : k = a
    · subst hak
      refine ih _ (Or.inr ?_)
      unfold reinstallStep
      rw [if_pos (Or.inr hk)]
      exact changesGet_changesSet_self ..
    · refine ih _ ?_
      rcases h with h | h
      · rcases List.mem_cons.mp h with h1 | h1
        · exact absurd h1 hak
        · exact Or.inl h1
      · refine Or.inr ?_
        unfold reinstallStep
        by_cases hc : ¬(changesGet r a).isSome ∨ dictHas old a
        · rw [if_pos hc, changesGet_changesSet_other _ _ _ _ hak]
          exact h
        · rw [if_neg hc]
          exact h

/-- C3 (amended).  Keys of the bare snapshot diff always differ between old
and new (given nonempty version strings); but `install`'s ChangeSet is the
diff plus the reinstall re-add loop of lines 843–847, which re-adds every
reinstall-bucketed name that is absent from the diff or present in the old
snapshot, binding it to its snapshot versions verbatim — so a reinstalled
package whose version did not change appears with `old` equal to `new`
instead of being omitted; every other key still differs. -/
theorem C3_reinstall_changes (old new : List (String × String))
    (reinst : List String)
    (hold : ∀ kv ∈ old, kv.2 ≠ "") (hnew : ∀ kv ∈ new, kv.2 ≠ "") :
    (∀ k c, (k, c) ∈ compare_dicts old new → c.old ≠ c.new) ∧
    (∀ k c, (k, c) ∈ install_changes_with_reinstall old new reinst →
      c.old ≠ c.new ∨ k ∈ reinst) ∧
    (∀ k, k ∈ reinst → dictHas old k = true →
      changesGet (install_changes_with_reinstall old new reinst) k =
        some ⟨dictGetD old k, dictGetD new k⟩) := by
  refine ⟨?_, ?_, ?_⟩
  · intro k c h
    exact compare_dicts_old_ne_new hold hnew h
  · intro k c h
    unfold install_changes_with_reinstall at h
    rcases mem_reinstall_fold old new reinst _ k c h with h1 | h1
    · exact Or.inl (compare_dicts_old_ne_new hold hnew h1)
    · exact Or.inr h1.1
  · intro k hkmem hkold
    unfold install_changes_with_reinstall
    exact reinstall_fold_get old new k hkold reinst (compare_dicts old new)
      (Or.inl hkmem)


/-- Witness for C3 (amended), applied at the counterexample input: the
reinstall key `"a"`, unchanged between the snapshots, is looked up with
`old = new = "1.0"`. -/
theorem C3_reinstall_changes_witness :
    changesGet (install_changes_with_reinstall [("a", "1.0")] [("a", "1.0")]
      ["a"]) "a" = some ⟨"1.0", "1.0"⟩ :=
  (C3_reinstall_changes [("a", "1.0")] [("a", "1.0")] ["a"]
    (by decide) (by decide)).2.2 "a" (by decide) (by decide)

/-- C1 (code bug).  `remove` and `upgrade` behave as claimed: a nonzero exit
code of the executed command makes the operation fail carrying the
accumulated error text and the snapshot-diff ChangeSet, never success.  But
`install` cannot: its command loop (line 817) passes four arguments to the
six-parameter `_execute_install_command` (line 585), so as soon as the
command plan is non-empty — for any environment, any exit codes — the
operation dies with a `TypeError` carrying neither error list nor
ChangeSet. -/
theorem C1_error_reporting :
    (∀ env : InstallEnv, env.preListFails = false →
      (install { params := .repository [("vim", some "1.0")] } env).outcome =
        InstallOutcome.typeError) ∧
    (∀ (args : RemoveArgs) (env : RemoveEnv),
      env.restartcheckComment = none →
      (env.exec (remove_command args env)).retcode ≠ 0 →
      (remove_targets args env).isEmpty = false →
      (remove args env).1 =
        RemoveOutcome.failure
          [if (env.exec (remove_command args env)).stderr ≠ "" then
             (env.exec (remove_command args env)).stderr
           else (env.exec (remove_command args env)).stdout]
          (compare_dicts env.old env.postSnap)) ∧
    (∀ (refresh : Bool) (env : UpgradeEnv),
      ¬(refresh = true ∧ env.refreshRaises = true) →
      env.preListFails = false → env.restartcheckComment = none →
      (env.exec ["opkg", "upgrade"]).retcode ≠ 0 →
      upgrade refresh env =
        UpgradeOutcome.failure [Sum.inl (env.exec ["opkg", "upgrade"])]
          (if env.postListFails then none
           else some (compare_dicts env.old env.postSnap))) := by
  refine ⟨?_, ?_, ?_⟩
  · intro env hpre
    unfold install
    rw [if_neg (by simp [hpre])]
    rw [if_neg (by simp [installParamsEmpty])]
    have hplan : ¬((install_plan
        { params := .repository [("vim", some "1.0")] } env).1).isEmpty = true := by
      unfold install_plan install_prefix_and_buckets bucketizeRepository
        processRepoPkg processCondition handle_to_install_package
      by_cases hcd : dictGetD env.old "vim" = "" ∨
          env.cmpGe "1.0" (dictGetD env.old "vim") = true
      · simp [get_version_info, regexSearch, tryOperators, pyStrip,
          pySplitOnChar, listSplitOnChar, optTruthy,
          PACKAGES_TO_INSTALL_DETACHED, build_install_command_list, hcd]
      · simp [get_version_info, regexSearch, tryOperators, pyStrip,
          pySplitOnChar, listSplitOnChar, optTruthy,
          PACKAGES_TO_INSTALL_DETACHED, build_install_command_list, hcd]
    rw [if_neg (by simp_all), if_neg (by simp), if_pos (by simp_all)]
  · intro args env hrc hret htgt
    unfold remove
    simp only [htgt, Bool.false_eq_true, if_false, hrc, hret, ite_true,
      ite_false, not_false_iff, if_neg, List.append_nil]
    simp [hret, List.contains, ite_self, List.filter_true]
  · intro refresh env hrr hpre hrc hret
    unfold upgrade
    rw [if_neg (by simpa using hrr), if_neg (by simp [hpre])]
    simp [hret, hrc]

/-- Witness for C1: the three operation shapes at concrete inputs — the
install raises the `TypeError`, the failing remove and upgrade report their
error text together with the computed ChangeSet. -/
theorem C1_error_reporting_witness :
    (install { params := .repository [("vim", some "1.0")] } {}).outcome =
      InstallOutcome.typeError ∧
    (remove { pkg_params := ["vim"] }
        { old := [("vim", "1.0")], postSnap := [],
          exec := fun _ => ⟨1, "out", "boom"⟩ }).1 =
      RemoveOutcome.failure ["boom"] [("vim", ⟨"1.0", ""⟩)] ∧
    upgrade false
        { old := [("vim", "1.0")], postSnap := [("vim", "2.0")],
          exec := fun _ => ⟨1, "o", "e"⟩ } =
      UpgradeOutcome.failure [Sum.inl ⟨1, "o", "e"⟩]
        (some [("vim", ⟨"1.0", "2.0"⟩)]) := by
  refine ⟨C1_error_reporting.1 {} rfl, ?_, ?_⟩
  · have h := C1_error_reporting.2.1 { pkg_params := ["vim"] }
      { old := [("vim", "1.0")], postSnap := [],
        exec := fun _ => ⟨1, "out", "boom"⟩ } rfl (by decide) (by decide)
    simpa using h
  · have h := C1_error_reporting.2.2 false
      { old := [("vim", "1.0")], postSnap := [("vim", "2.0")],
        exec := fun _ => ⟨1, "o", "e"⟩ } (by simp) rfl rfl (by decide)
    simpa using h

/-- C4 (code bug).  An install request for the allow-listed package with a
version constraint is routed into the detached bucket and its detached
command is built — but `install` never executes it: the only command loop
iterates `cmds`, never `detached_cmds`, so for every environment the run
ends without one subprocess beyond the snapshot listings. -/
theorem C4_detached_never_launched (env : InstallEnv)
    (hpre : env.preListFails = false) (hpost : env.postListFails = false) :
    (install { params :=
        PkgParams.repository [("ni-sysmgmt-salt-minion-support", some ">=1.0")] }
      env).to_install_detached = ["ni-sysmgmt-salt-minion-support>=1.0"] ∧
    (install { params :=
        PkgParams.repository [("ni-sysmgmt-salt-minion-support", some ">=1.0")] }
      env).detached_cmds =
      [["opkg", "install", "ni-sysmgmt-salt-minion-support>=1.0"]] ∧
    (∀ c ∈ (install { params :=
        PkgParams.repository [("ni-sysmgmt-salt-minion-support", some ">=1.0")] }
      env).invoked, c = ["opkg", "list-installed"]) := by
  have hbuck : install_prefix_and_buckets
      { params := PkgParams.repository [("ni-sysmgmt-salt-minion-support", some ">=1.0")] }
      env =
      (["opkg", "install"],
       { to_install_detached := ["ni-sysmgmt-salt-minion-support>=1.0"] }) := by
    unfold install_prefix_and_buckets bucketizeRepository processRepoPkg
      processCondition handle_to_install_package
    simp [get_version_info, regexSearch, tryOperators, matchAfterOperator,
      matchVersionGroup, matchVersionCore, pyStrip, pySplitOnChar,
      listSplitOnChar, optTruthy, PACKAGES_TO_INSTALL_DETACHED,
      versionOperators, isVersionChar]
  have hplan : install_plan
      { params := PkgParams.repository [("ni-sysmgmt-salt-minion-support", some ">=1.0")] }
      env =
      ([], [["opkg", "install", "ni-sysmgmt-salt-minion-support>=1.0"]]) := by
    unfold install_plan
    rw [hbuck]
    simp [build_install_command_list]
  unfold install
  simp only [hpre, Bool.false_eq_true, if_false, hplan, hbuck,
    installParamsEmpty]
  cases hrc : env.restartcheckComment <;>
    cases hcc : env.contextCached <;>
      simp [hrc, hcc, hpost]

/-- Witness for C4 at the default environment. -/
theorem C4_detached_never_launched_witness :
    (install { params :=
        PkgParams.repository [("ni-sysmgmt-salt-minion-support", some ">=1.0")] }
      {}).to_install_detached = ["ni-sysmgmt-salt-minion-support>=1.0"] ∧
    (install { params :=
        PkgParams.repository [("ni-sysmgmt-salt-minion-support", some ">=1.0")] }
      {}).detached_cmds =
      [["opkg", "install", "ni-sysmgmt-salt-minion-support>=1.0"]] :=
  ⟨(C4_detached_never_launched {} rfl rfl).1,
   (C4_detached_never_launched {} rfl rfl).2.1⟩

/-- C10 counterexample.  With an empty target set, a cold package-list
cache and `refresh=True`, `install` returns the empty ChangeSet without
refreshing — but it has already invoked the external tool once, for the
initial `opkg list-installed` snapshot taken before the emptiness check, so
"without invoking the external tool at all" fails on the code. -/
theorem C10_early_return_counterexample :
    (install { params := .repository [], refresh := true }
      { contextCached := false }).outcome = InstallOutcome.success [] ∧
    (install { params := .repository [], refresh := true }
      { contextCached := false }).invoked = [["opkg", "list-installed"]] ∧
    (install { params := .repository [], refresh := true }
      { contextCached := false }).refreshed = false := by
  refine ⟨by decide, by decide, by decide⟩

/-- C10 (amended).  If the resolved target set is empty, or the command
plan (plain and detached) is empty, `install` returns the empty ChangeSet
without executing any install command and without refreshing the package
index, even when `refresh=True` — the refresh happens only after the plan
is found non-empty; the only tool invocation such a run can make is the
initial `opkg list-installed` snapshot, taken before these checks when no
cached package list is available. -/
theorem C10_early_return (args : InstallArgs) (env : InstallEnv)
    (hpre : env.preListFails = false)
    (h : installParamsEmpty args = true ∨ install_plan args env = ([], [])) :
    (install args env).outcome = InstallOutcome.success [] ∧
    (install args env).refreshed = false ∧
    (∀ c ∈ (install args env).invoked, c = ["opkg", "list-installed"]) := by
  unfold install
  by_cases hemp : installParamsEmpty args = true
  · simp only [hpre, Bool.false_eq_true, if_false, hemp, if_true]
    refine ⟨by trivial, by trivial, ?_⟩
    intro c hc
    cases hcc : env.contextCached <;> simp [hcc] at hc <;> simp [hc]
  · have hplan : install_plan args env = ([], []) := h.resolve_left hemp
    simp only [hpre, Bool.false_eq_true, if_false, hemp, hplan]
    refine ⟨by trivial, by trivial, ?_⟩
    intro c hc
    cases hcc : env.contextCached <;> simp [hcc] at hc <;> simp [hc]

/-- Witness for C10 (amended) at the empty-target install with a warm
cache. -/
theorem C10_early_return_witness :
    (install { params := .repository [] } {}).outcome =
      InstallOutcome.success [] ∧
    (install { params := .repository [] } {}).refreshed = false :=
  ⟨(C10_early_return { params := .repository [] } {} rfl
      (Or.inl (by decide))).1,
   (C10_early_return { params := .repository [] } {} rfl
      (Or.inl (by decide))).2.1⟩


theorem py_split_accum (w : List Char) :
    ∀ (cs acc : List Char), (∀ c ∈ w, c.isWhitespace = false) →
      pySplitAux (w ++ cs) acc = pySplitAux cs (w.reverse ++ acc) := by
  induction w with
  | nil => intro cs acc _; simp
  | cons c w ih =>
    intro cs acc hws
    have hc : c.isWhitespace = false := hws c (List.mem_cons_self ..)
    have hstep : pySplitAux ((c :: w) ++ cs) acc = pySplitAux (w ++ cs) (c :: acc) := by
      simp [pySplitAux, hc]
    rw [hstep, ih cs (c :: acc) (fun x hx => hws x (List.mem_cons_of_mem _ hx)),
      List.reverse_cons, List.append_assoc, List.singleton_append]

theorem py_split_word (w : List Char) (rest : List Char) (hw : w ≠ [])
    (hws : ∀ c ∈ w, c.isWhitespace = false) :
    pySplitAux (w ++ ' ' :: rest) [] = String.mk w :: pySplitAux rest [] := by
  rw [py_split_accum w (' ' :: rest) [] hws]
  simp [pySplitAux, hw]

theorem py_split_head (cs : List Char) :
    ∀ acc : List Char, acc ≠ [] →
      ∃ u ts, pySplitAux cs acc = String.mk (acc.reverse ++ u) :: ts := by
  induction cs with
  | nil =>
    intro acc hacc
    refine ⟨[], [], ?_⟩
    simp [pySplitAux, hacc]
  | cons c cs ih =>
    intro acc hacc
    by_cases hc : c.isWhitespace = true
    · refine ⟨[], pySplitAux cs [], ?_⟩
      simp [pySplitAux, hc, hacc]
    · obtain ⟨u, ts, hu⟩ := ih (c :: acc) (by simp)
      refine ⟨c :: u, ts, ?_⟩
      simp only [pySplitAux, hc, if_false, Bool.false_eq_true]
      rw [hu]
      simp

theorem pySplit_installingLine (p v : String) (hp : p ≠ "")
    (hpw : ∀ c ∈ p.toList, c.isWhitespace = false) :
    ∃ u ts, pySplit (installingLine p v) =
      "Installing" :: p :: String.mk ('(' :: u) :: ts := by
  have hlist : (installingLine p v).toList =
      "Installing".toList ++ ' ' :: (p.toList ++ ' ' :: '(' ::
        (v.toList ++ (')' :: " on root".toList))) := by
    unfold installingLine
    show (((("Installing " ++ p) ++ " (") ++ v) ++ ") on root").data = _
    simp [String.data_append]
  have hpl : p.toList ≠ [] := by
    cases p with
    | mk l => intro hl; exact hp (by simp_all)
  unfold pySplit
  rw [hlist]
  have h1 : "Installing".toList ++ ' ' :: (p.toList ++ ' ' :: '(' ::
      (v.toList ++ (')' :: " on root".toList))) =
      "Installing".toList ++ ' ' :: (p.toList ++ ' ' ::
        ('(' :: (v.toList ++ (')' :: " on root".toList)))) := by simp
  rw [h1, py_split_word "Installing".toList _ (by decide) (by decide),
    py_split_word p.toList _ hpl hpw]
  have hmk : String.mk p.toList = p := by cases p; rfl
  have hstep : pySplitAux ('(' :: (v.toList ++ (')' :: " on root".toList))) [] =
      pySplitAux (v.toList ++ (')' :: " on root".toList)) ['('] := by
    simp [pySplitAux]
  rw [hstep, hmk]
  obtain ⟨u, ts, hu⟩ :=
    py_split_head (v.toList ++ (')' :: " on root".toList)) ['('] (by simp)
  rw [hu]
  exact ⟨u, ts, rfl⟩

theorem classify_installingLine (p v : String) (hp : p ≠ "")
    (hpw : ∀ c ∈ p.toList, c.isWhitespace = false) :
    get_operation_and_package_from_output_line (installingLine p v) =
      (some OpKind.install, some p) := by
  obtain ⟨u, ts, hsplit⟩ := pySplit_installingLine p v hp hpw
  have hop : get_operation_from_output_line (installingLine p v) true =
      some OpKind.install := by
    unfold get_operation_from_output_line
    rw [hsplit]
    rfl
  have hpkg : get_package_from_output_line (some OpKind.install)
      (installingLine p v) = some p := by
    unfold get_package_from_output_line
    rw [if_neg (by simp), if_pos (by simp), hsplit]
    simp [strStartsWith, List.isPrefixOf]
  simp only [get_operation_and_package_from_output_line]
  rw [hop, hpkg]



theorem monitorStep_install (total period now : Int) (st : MonState)
    (line : String) (p : String) (hp : p ≠ "")
    (hparse : get_operation_and_package_from_output_line line =
      (some OpKind.install, some p)) :
    monitorStep total period now st line =
      (let st2 : MonState :=
        { st with
          stdoutAcc := st.stdoutAcc ++ line,
          operation := some OpKind.install,
          currentPackage := some p,
          processed := st.processed + 1,
          forceUpdate := st.forceUpdate ||
            decide (((st.processed + 1 : Nat) : Int) = 1 ∨
              ((st.processed + 1 : Nat) : Int) = total) }
       if (now - st2.lastNotify > period ∨ st2.forceUpdate = true) ∧
           st2.lastSent ≠ st2.currentPackage then
         { st2 with
           forceUpdate := false,
           lastSent := st2.currentPackage,
           lastNotify := now,
           events := st2.events ++
             [{ operation := st2.operation, package := st2.currentPackage,
                count := st2.processed, total := total }] }
       else st2) := by
  unfold monitorStep
  rw [hparse]
  simp [optTruthy, hp]



theorem monitorStep_install_processed (total period now : Int) (st : MonState)
    (line p : String) (hp : p ≠ "")
    (hparse : get_operation_and_package_from_output_line line =
      (some OpKind.install, some p)) :
    (monitorStep total period now st line).processed = st.processed + 1 := by
  rw [monitorStep_install total period now st line p hp hparse]
  dsimp only
  split <;> rfl

theorem monitorStep_install_mono (total period now : Int) (st : MonState)
    (line p : String) (hp : p ≠ "")
    (hparse : get_operation_and_package_from_output_line line =
      (some OpKind.install, some p)) :
    ∀ e ∈ st.events, e ∈ (monitorStep total period now st line).events := by
  rw [monitorStep_install total period now st line p hp hparse]
  dsimp only
  split
  · intro e he; exact List.mem_append_left _ he
  · intro e he; exact he

theorem monitorStep_install_inv (total period now : Int) (st : MonState)
    (line p : String) (hp : p ≠ "")
    (hparse : get_operation_and_package_from_output_line line =
      (some OpKind.install, some p))
    (hinv : eventsInv st) :
    eventsInv (monitorStep total period now st line) := by
  rw [monitorStep_install total period now st line p hp hparse]
  dsimp only
  split
  · intro q hq
    simp only at hq
    refine ⟨_, List.mem_append_right _ (List.mem_singleton.mpr rfl), ?_⟩
    simp only
    exact hq
  · exact hinv

theorem monitorStep_install_last (total period now : Int) (st : MonState)
    (line p : String) (hp : p ≠ "")
    (hparse : get_operation_and_package_from_output_line line =
      (some OpKind.install, some p))
    (htot : ((st.processed + 1 : Nat) : Int) = total) (hinv : eventsInv st) :
    ∃ e ∈ (monitorStep total period now st line).events,
      e.package = some p := by
  rw [monitorStep_install total period now st line p hp hparse]
  dsimp only
  by_cases hsent : st.lastSent ≠ some p
  · rw [if_pos ⟨Or.inr (by simp [htot]), hsent⟩]
    exact ⟨_, List.mem_append_right _ (List.mem_singleton.mpr rfl), rfl⟩
  · push_neg at hsent
    obtain ⟨e, he, hep⟩ := hinv p hsent
    split
    · exact ⟨e, List.mem_append_left _ he, hep⟩
    · exact ⟨e, he, hep⟩

theorem monitorStep_install_first (total period now : Int) (st : MonState)
    (line p : String) (hp : p ≠ "")
    (hparse : get_operation_and_package_from_output_line line =
      (some OpKind.install, some p))
    (hsent : st.lastSent = none) (hforce : st.forceUpdate = true) :
    ∃ e ∈ (monitorStep total period now st line).events,
      e.package = some p := by
  rw [monitorStep_install total period now st line p hp hparse]
  dsimp only
  rw [if_pos ⟨Or.inr (by simp [hforce]), by simp [hsent]⟩]
  exact ⟨_, List.mem_append_right _ (List.mem_singleton.mpr rfl), rfl⟩



theorem getLastD_of_ne_nil {α : Type} {l : List α} (h : l ≠ []) (d d' : α) :
    l.getLastD d = l.getLastD d' := by
  rw [List.getLastD_eq_getLast?, List.getLastD_eq_getLast?]
  cases hl : l.getLast? with
  | none => exact absurd (List.getLast?_eq_none_iff.mp hl) h
  | some x => rfl

theorem monitorGo_install_invariants (total period : Int) (ts : Nat → Int) :
    ∀ (items : List (String × String)) (i : Nat) (st : MonState),
      (∀ pv ∈ items, pv.1 ≠ "" ∧ ∀ c ∈ pv.1.toList, c.isWhitespace = false) →
      eventsInv st →
      ((st.processed : Int) + items.length = total) →
      (monitorGo total period ts i st
          (items.map fun pv => installingLine pv.1 pv.2)).processed =
        st.processed + items.length ∧
      (∀ e ∈ st.events, e ∈ (monitorGo total period ts i st
          (items.map fun pv => installingLine pv.1 pv.2)).events) ∧
      (items ≠ [] → ∃ e ∈ (monitorGo total period ts i st
          (items.map fun pv => installingLine pv.1 pv.2)).events,
        e.package = some (items.getLastD ("", "")).1) := by
  intro items
  induction items with
  | nil =>
    intro i st _ hinv htot
    refine ⟨by simp [monitorGo], by simp [monitorGo], by simp⟩
  | cons pv rest ih =>
    intro i st hitems hinv htot
    obtain ⟨hp, hpw⟩ := hitems pv (List.mem_cons_self ..)
    have hparse := classify_installingLine pv.1 pv.2 hp hpw
    simp only [List.map_cons, monitorGo]
    have hproc1 := monitorStep_install_processed total period (ts i) st
      (installingLine pv.1 pv.2) pv.1 hp hparse
    have hinv1 := monitorStep_install_inv total period (ts i) st
      (installingLine pv.1 pv.2) pv.1 hp hparse hinv
    have hmono1 := monitorStep_install_mono total period (ts i) st
      (installingLine pv.1 pv.2) pv.1 hp hparse
    have htot1 : ((monitorStep total period (ts i) st
        (installingLine pv.1 pv.2)).processed : Int) + rest.length = total := by
      rw [hproc1]
      push_cast
      simp only [List.length_cons] at htot
      push_cast at htot
      linarith
    obtain ⟨hT1, hT3, hT4⟩ := ih (i + 1)
      (monitorStep total period (ts i) st (installingLine pv.1 pv.2))
      (fun x hx => hitems x (List.mem_cons_of_mem _ hx)) hinv1 htot1
    refine ⟨?_, ?_, ?_⟩
    · rw [hT1, hproc1]
      simp only [List.length_cons]
      omega
    · intro e he
      exact hT3 e (hmono1 e he)
    · intro _
      cases rest with
      | nil =>
        have hlast : ((st.processed + 1 : Nat) : Int) = total := by
          simp only [List.length_cons, List.length_nil] at htot
          push_cast at htot ⊢
          linarith
        obtain ⟨e, he, hep⟩ := monitorStep_install_last total period (ts i) st
          (installingLine pv.1 pv.2) pv.1 hp hparse hlast hinv
        exact ⟨e, hT3 e he, hep⟩
      | cons r rs =>
        obtain ⟨e, he, hep⟩ := hT4 (by simp)
        refine ⟨e, he, ?_⟩
        rw [hep]
        have h1 : (pv :: r :: rs).getLastD ("", "") = (r :: rs).getLastD pv := by
          rw [List.getLastD_cons]
        rw [h1, getLastD_of_ne_nil (l := r :: rs) (by simp) ("", "") pv]

/-- C9.  For a child process that prints N >= 1 lines
`Installing <pkg> (<ver>) on root` and exits 0, the Progress Monitor
finishes with `processedCount = N`, and among the fired events some event
carries the package of the first printed line and some event carries the
package of the last printed line (package names are single tokens: nonempty
and whitespace-free, as opkg package names are). -/
theorem C9_progress_monitor (items : List (String × String)) (ts : Nat → Int)
    (period : Int) (hne : items ≠ [])
    (hitems : ∀ pv ∈ items, pv.1 ≠ "" ∧
      ∀ c ∈ pv.1.toList, c.isWhitespace = false) :
    (monitorRun (items.length : Int) period ts
        (items.map fun pv => installingLine pv.1 pv.2)).processed =
      items.length ∧
    (∃ e ∈ (monitorRun (items.length : Int) period ts
        (items.map fun pv => installingLine pv.1 pv.2)).events,
      e.package = some (items.headD ("", "")).1) ∧
    (∃ e ∈ (monitorRun (items.length : Int) period ts
        (items.map fun pv => installingLine pv.1 pv.2)).events,
      e.package = some (items.getLastD ("", "")).1) := by
  cases items with
  | nil => exact absurd rfl hne
  | cons pv rest =>
    obtain ⟨hp, hpw⟩ := hitems pv (List.mem_cons_self ..)
    have hparse := classify_installingLine pv.1 pv.2 hp hpw
    unfold monitorRun
    simp only [List.map_cons, monitorGo]
    have hfirst := monitorStep_install_first ((pv :: rest).length : Int) period
      (ts 0) {} (installingLine pv.1 pv.2) pv.1 hp hparse rfl rfl
    have hinv1 := monitorStep_install_inv ((pv :: rest).length : Int) period
      (ts 0) {} (installingLine pv.1 pv.2) pv.1 hp hparse
      (fun q hq => by cases hq)
    have hproc1 := monitorStep_install_processed ((pv :: rest).length : Int)
      period (ts 0) {} (installingLine pv.1 pv.2) pv.1 hp hparse
    have htot1 : ((monitorStep ((pv :: rest).length : Int) period (ts 0) {}
        (installingLine pv.1 pv.2)).processed : Int) + rest.length =
        ((pv :: rest).length : Int) := by
      rw [hproc1]
      simp [MonState.processed]
      ring
    obtain ⟨hT1, hT3, hT4⟩ := monitorGo_install_invariants
      ((pv :: rest).length : Int) period ts rest 1
      (monitorStep ((pv :: rest).length : Int) period (ts 0) {}
        (installingLine pv.1 pv.2))
      (fun x hx => hitems x (List.mem_cons_of_mem _ hx)) hinv1 htot1
    refine ⟨?_, ?_, ?_⟩
    · rw [hT1, hproc1]
      show 0 + 1 + rest.length = (pv :: rest).length
      simp only [List.length_cons]
      omega
    · obtain ⟨e, he, hep⟩ := hfirst
      exact ⟨e, hT3 e he, hep⟩
    · cases rest with
      | nil =>
        obtain ⟨e, he, hep⟩ := hfirst
        exact ⟨e, hT3 e he, hep⟩
      | cons r rs =>
        obtain ⟨e, he, hep⟩ := hT4 (by simp)
        refine ⟨e, he, ?_⟩
        rw [hep]
        have h1 : (pv :: r :: rs).getLastD ("", "") = (r :: rs).getLastD pv := by
          rw [List.getLastD_cons]
        rw [h1, getLastD_of_ne_nil (l := r :: rs) (by simp) ("", "") pv]


/-- Witness for C9 at a one-line scripted child. -/
theorem C9_progress_monitor_witness :
    (monitorRun 1 60 (fun _ => 0) [installingLine "vim" "1.0"]).processed
      = 1 := by
  have h := (C9_progress_monitor [("vim", "1.0")] (fun _ => 0) 60
    (by decide) (by decide)).1
  simpa using h

end Opkg
